import Mathlib

/-
Verification of the poum units-of-measure registry (src/python/poum).
Shallow embedding: Decimal values are modelled as exact rationals, Python
exceptions as an explicit error type, the quantity set of the manager as a
list in iteration order, and the alias dict as an association list.
-/

namespace Poum

/-- Error kinds raised by the code: ValueError on absent required arguments,
decimal division by zero, and the AttributeError a comparison with a missing
object raises. -/
inductive Err where
  | invalidArgument
  | divisionByZero
  | attributeError
deriving DecidableEq, Repr

/-- A unit of measure: name, symbol, the four bilinear coefficients and the
display symbol, as in class Unit. -/
structure Unit where
  name : String
  symbol : String
  a : ℚ
  b : ℚ
  c : ℚ
  d : ℚ
  displaySymbol : String
deriving DecidableEq, Repr

/-- Division of exact decimals, failing when the denominator is zero. -/
def qdiv (x y : ℚ) : Except Err ℚ :=
  if y = 0 then .error .divisionByZero else .ok (x / y)

/-- Unit.to_base: ((a * value) + b) / ((c * value) + d). -/
def Unit.to_base (u : Unit) (value : ℚ) : Except Err ℚ :=
  qdiv (u.a * value + u.b) (u.c * value + u.d)

/-- Unit.from_base: (b - (d * value)) / ((c * value) - a). -/
def Unit.from_base (u : Unit) (value : ℚ) : Except Err ℚ :=
  qdiv (u.b - u.d * value) (u.c * value - u.a)

/-- Unit equality as defined by the code: name, symbol and the four
coefficients, the display symbol excluded. -/
def ueq (u v : Unit) : Bool :=
  decide (u.name = v.name ∧ u.symbol = v.symbol ∧
    u.a = v.a ∧ u.b = v.b ∧ u.c = v.c ∧ u.d = v.d)

/-- Membership of a unit in a unit list, element comparison by ueq. -/
def umem (u : Unit) (us : List Unit) : Bool :=
  us.any (fun e => ueq u e)

/-- A quantity: a name and an ordered list of member units. -/
structure Quantity where
  name : String
  units : List Unit
deriving DecidableEq, Repr

/-- Quantity.base_unit returns element 0 of the unit list, absent when the
list is empty. -/
def Quantity.base_unit (q : Quantity) : Option Unit :=
  q.units.head?

/-- Decidable equality of results, to evaluate the operations on concrete
registries. -/
instance decEqExcept {ε α : Type} [DecidableEq ε] [DecidableEq α] :
    DecidableEq (Except ε α) := fun x y =>
  match x, y with
  | .ok a, .ok b =>
    if h : a = b then isTrue (by rw [h])
    else isFalse (fun hc => h (Except.ok.inj hc))
  | .error a, .error b =>
    if h : a = b then isTrue (by rw [h])
    else isFalse (fun hc => h (Except.error.inj hc))
  | .ok _, .error _ => isFalse (fun hc => Except.noConfusion hc)
  | .error _, .ok _ => isFalse (fun hc => Except.noConfusion hc)

/-- The UnitManager state: its quantities in iteration order and the alias
table as an association list in insertion order. -/
structure Registry where
  quantities : List Quantity
  unitAliases : List (String × String)
deriving DecidableEq, Repr

/-- Python str.lower, character-wise lower-casing. -/
def pylower (s : String) : String :=
  ⟨s.data.map Char.toLower⟩

/-- Python str.strip, removing leading and trailing whitespace. -/
def pytrim (s : String) : String :=
  ⟨((s.data.dropWhile Char.isWhitespace).reverse.dropWhile Char.isWhitespace).reverse⟩

/-- All units of the registry in quantity iteration order, as scanned by the
nested loops of UnitManager.find_unit. -/
def allUnits (r : Registry) : List Unit :=
  r.quantities.foldr (fun q acc => q.units ++ acc) []

/-- UnitManager.find_quantity: linear scan by exact name. -/
def find_quantity (r : Registry) (quantityName : String) : Option Quantity :=
  r.quantities.find? (fun q => q.name == quantityName)

/-- UnitManager.find_unit: sentinel for absent or blank input, alias
substitution on the lower-cased trimmed form, exact search, then
case-insensitive fallback against the lower-cased trimmed input. -/
def find_unit (r : Registry) (unitSymbol : Option String) : Option Unit :=
  let sym0 : String :=
    match unitSymbol with
    | none => "unitless"
    | some s => if pytrim s == "" then "unitless" else s
  let lowerCaseSymbol := pytrim (pylower sym0)
  let sym1 : String :=
    match r.unitAliases.lookup lowerCaseSymbol with
    | some actual => actual
    | none => sym0
  match (allUnits r).find? (fun u => u.symbol == sym1) with
  | some u => some u
  | none => (allUnits r).find? (fun u => pylower u.symbol == lowerCaseSymbol)

/-- Step 1 of the claimed find_unit resolution order: an absent or blank
symbol is replaced by the sentinel. -/
def sentinelStep : Option String → String
  | none => "unitless"
  | some s => if pytrim s == "" then "unitless" else s

/-- Exact case-sensitive search over all member lists. -/
def exactSearch (r : Registry) (sym : String) : Option Unit :=
  (allUnits r).find? (fun u => u.symbol == sym)

/-- Case-insensitive search against a lower-cased form. -/
def ciSearch (r : Registry) (lower : String) : Option Unit :=
  (allUnits r).find? (fun u => pylower u.symbol == lower)

/-- The find_unit resolution order exactly as the claim states it: sentinel
substitution, alias substitution of the lower-cased trimmed form keeping
that form for the fallback, exact search, case-insensitive fallback,
otherwise absent. -/
def findUnitSpec (r : Registry) (unitSymbol : Option String) : Option Unit :=
  let s := sentinelStep unitSymbol
  let lower := pytrim (pylower s)
  let searched :=
    match r.unitAliases.lookup lower with
    | some canonical => canonical
    | none => s
  match exactSearch r searched with
  | some u => some u
  | none => ciSearch r lower

/-- Insertion into the accumulated unit set: skipped when an element equal
under ueq is already present, appended otherwise. -/
def insertUnit (acc : List Unit) (u : Unit) : List Unit :=
  if acc.any (fun e => ueq u e) then acc else acc ++ [u]

/-- set.update of the unit set with a member list. -/
def unionUnits (acc : List Unit) (us : List Unit) : List Unit :=
  us.foldl insertUnit acc

/-- Body of UnitManager.find_convertible_units on a present unit: union the
member lists of every quantity containing the unit, then discard the unit. -/
def convertibleUnitsOf (r : Registry) (u : Unit) : List Unit :=
  (r.quantities.foldl
      (fun acc q => if umem u q.units then unionUnits acc q.units else acc)
      []).filter (fun e => ! ueq e u)

/-- UnitManager.find_convertible_units, raising InvalidArgument on an absent
unit. -/
def find_convertible_units (r : Registry) (unit : Option Unit) :
    Except Err (List Unit) :=
  match unit with
  | none => .error .invalidArgument
  | some u => .ok (convertibleUnitsOf r u)

/-- UnitManager.find_convertible_units_by_symbol: resolve first, empty list
when resolution fails. -/
def find_convertible_units_by_symbol (r : Registry) (unitSymbol : Option String) :
    List Unit :=
  match find_unit r unitSymbol with
  | some u => convertibleUnitsOf r u
  | none => []

/-- The quantities whose member list contains the unit, in iteration order. -/
def quantitiesContaining (r : Registry) (u : Unit) : List Quantity :=
  r.quantities.filter (fun q => umem u q.units)

/-- The scan of the collected quantities for one containing the Euc unit,
stopping at the first hit. When the Euc symbol did not resolve, the
membership test crashes with AttributeError on the first non-empty member
list, and finds nothing when every member list is empty. -/
def eucScan (euclidUnit : Option Unit) : List Quantity → Except Err Bool
  | [] => .ok false
  | q :: rest =>
    match euclidUnit with
    | some e => if umem e q.units then .ok true else eucScan (some e) rest
    | none => if q.units.isEmpty then eucScan none rest else .error .attributeError

/-- Body of UnitManager.find_quantities_by_unit on a present unit: collect
the containing quantities, then append the result of
find_quantity dimensionless once when the Euc scan hits. -/
def quantitiesByUnitOf (r : Registry) (u : Unit) :
    Except Err (List (Option Quantity)) :=
  match eucScan (find_unit r (some "Euc")) (quantitiesContaining r u) with
  | .error e => .error e
  | .ok found =>
    .ok ((quantitiesContaining r u).map some ++
      if found then [find_quantity r "dimensionless"] else [])

/-- UnitManager.find_quantities_by_unit, raising InvalidArgument on an
absent unit. -/
def find_quantities_by_unit (r : Registry) (unit : Option Unit) :
    Except Err (List (Option Quantity)) :=
  match unit with
  | none => .error .invalidArgument
  | some u => quantitiesByUnitOf r u

/-- UnitManager.find_quantities_by_symbol: resolve first, empty list when
resolution fails. -/
def find_quantities_by_symbol (r : Registry) (unitSymbol : Option String) :
    Except Err (List (Option Quantity)) :=
  match find_unit r unitSymbol with
  | some u => quantitiesByUnitOf r u
  | none => .ok []

/-- Body of UnitManager.can_convert on present units: the two quantity lists
intersect. -/
def canConvertOf (r : Registry) (u1 u2 : Unit) : Except Err Bool :=
  match quantitiesByUnitOf r u1 with
  | .error e => .error e
  | .ok qs1 =>
    match quantitiesByUnitOf r u2 with
    | .error e => .error e
    | .ok qs2 => .ok (qs1.any (fun q => decide (q ∈ qs2)))

/-- UnitManager.can_convert, raising InvalidArgument when either unit is
absent. -/
def can_convert (r : Registry) (unit1 unit2 : Option Unit) : Except Err Bool :=
  match unit1, unit2 with
  | some u1, some u2 => canConvertOf r u1 u2
  | _, _ => .error .invalidArgument

/-- UnitManager.can_convert_by_symbol: false on absent symbols, false when
either symbol does not resolve. -/
def can_convert_by_symbol (r : Registry) (unitSymbol1 unitSymbol2 : Option String) :
    Except Err Bool :=
  match unitSymbol1, unitSymbol2 with
  | some s1, some s2 =>
    match find_unit r (some s1), find_unit r (some s2) with
    | some u1, some u2 => canConvertOf r u1 u2
    | _, _ => .ok false
  | _, _ => .ok false

/-- An argument of UnitManager.convert: a unit object, a symbol string, or
an absent value. -/
inductive UnitArg where
  | unit (u : Unit)
  | sym (s : String)
  | null
deriving DecidableEq, Repr

/-- String arguments of convert are resolved through find_unit. -/
def resolveArg (r : Registry) : UnitArg → Option Unit
  | .unit u => some u
  | .sym s => find_unit r (some s)
  | .null => none

/-- UnitManager.convert: resolve both sides, raise InvalidArgument when
either is absent, otherwise from_base of to_base. -/
def convert (r : Registry) (fromUnit toUnit : UnitArg) (value : ℚ) :
    Except Err ℚ :=
  match resolveArg r fromUnit, resolveArg r toUnit with
  | some fu, some tu => (fu.to_base value).bind tu.from_base
  | _, _ => .error .invalidArgument

/-- UnitManager.convert_by_symbol: raises InvalidArgument on absent symbol
arguments, passes the value through when either symbol does not resolve. -/
def convert_by_symbol (r : Registry) (fromSymbol toSymbol : Option String)
    (value : ℚ) : Except Err ℚ :=
  match fromSymbol, toSymbol with
  | some fs, some ts =>
    match find_unit r (some fs), find_unit r (some ts) with
    | some fu, some tu => convert r (.unit fu) (.unit tu) value
    | _, _ => .ok value
  | _, _ => .error .invalidArgument

/-- dict assignment for the alias table: replace the value of an existing
key in place, append a new key at the end. -/
def insertAlias (table : List (String × String)) (key val : String) :
    List (String × String) :=
  if table.any (fun kv => kv.1 == key) then
    table.map (fun kv => if kv.1 == key then (kv.1, val) else kv)
  else table ++ [(key, val)]

/-- UnitManager.add_unit_alias: raises InvalidArgument when either argument
is absent, otherwise stores the alias key lower-cased. -/
def add_unit_alias (r : Registry) (unitSymbolAlias unitSymbol : Option String) :
    Except Err Registry :=
  match unitSymbolAlias, unitSymbol with
  | some al, some sym =>
    .ok { r with unitAliases := insertAlias r.unitAliases (pylower al) sym }
  | _, _ => .error .invalidArgument

/-- Modelled from the spec: a unit whose bilinear transform is the identity.
The bundled unit data file poum/uom.json is not under src; per the spec,
the base unit of a quantity is the reference unit all conversions route
through, carrying coefficients a=1, b=0, c=0, d=1. -/
def IsIdentityTransform (u : Unit) : Prop :=
  u.a = 1 ∧ u.b = 0 ∧ u.c = 0 ∧ u.d = 1

/-- Modelled from the spec: every populated quantity of the registry has an
identity-transform base unit, as the absent uom.json data provides. -/
def BaseUnitsIdentity (r : Registry) : Prop :=
  ∀ q ∈ r.quantities, ∀ b ∈ q.base_unit, IsIdentityTransform b

/-- Concrete units for a test registry. -/
def metreUnit : Unit :=
  { name := "metre", symbol := "m", a := 1, b := 0, c := 0, d := 1,
    displaySymbol := "m" }

def centimetreUnit : Unit :=
  { name := "centimetre", symbol := "cm", a := 1, b := 0, c := 0, d := 100,
    displaySymbol := "cm" }

def eucUnit : Unit :=
  { name := "euclid", symbol := "Euc", a := 1, b := 0, c := 0, d := 1,
    displaySymbol := "Euc" }

def lengthQuantity : Quantity :=
  { name := "length", units := [metreUnit, centimetreUnit] }

def dimensionlessQuantity : Quantity :=
  { name := "dimensionless", units := [eucUnit] }

/-- A small concrete registry used by the witnesses. -/
def testRegistry : Registry :=
  { quantities := [lengthQuantity, dimensionlessQuantity],
    unitAliases := [("meters", "m")] }

/-- The empty registry. -/
def emptyRegistry : Registry :=
  { quantities := [], unitAliases := [] }

end Poum

namespace Poum

theorem ueq_iff (u v : Unit) :
    ueq u v = true ↔ (u.name = v.name ∧ u.symbol = v.symbol ∧
      u.a = v.a ∧ u.b = v.b ∧ u.c = v.c ∧ u.d = v.d) := by
  simp [ueq]

theorem ueq_symm (u v : Unit) : ueq u v = ueq v u := by
  unfold ueq
  rw [decide_eq_decide]
  constructor <;> rintro ⟨h1, h2, h3, h4, h5, h6⟩ <;>
    exact ⟨h1.symm, h2.symm, h3.symm, h4.symm, h5.symm, h6.symm⟩

theorem ueq_trans {u v w : Unit} (h1 : ueq u v = true) (h2 : ueq v w = true) :
    ueq u w = true := by
  rw [ueq_iff] at h1 h2 ⊢
  obtain ⟨a1, a2, a3, a4, a5, a6⟩ := h1
  obtain ⟨b1, b2, b3, b4, b5, b6⟩ := h2
  exact ⟨a1.trans b1, a2.trans b2, a3.trans b3, a4.trans b4, a5.trans b5, a6.trans b6⟩

theorem to_base_ok {u : Unit} {x : ℚ} (h : u.c * x + u.d ≠ 0) :
    u.to_base x = .ok ((u.a * x + u.b) / (u.c * x + u.d)) := by
  unfold Unit.to_base qdiv; simp [h]

theorem to_base_zero {u : Unit} {x : ℚ} (h : u.c * x + u.d = 0) :
    u.to_base x = .error .divisionByZero := by
  unfold Unit.to_base qdiv; simp [h]

theorem from_base_ok {u : Unit} {x : ℚ} (h : u.c * x - u.a ≠ 0) :
    u.from_base x = .ok ((u.b - u.d * x) / (u.c * x - u.a)) := by
  unfold Unit.from_base qdiv; simp [h]

theorem from_base_zero {u : Unit} {x : ℚ} (h : u.c * x - u.a = 0) :
    u.from_base x = .error .divisionByZero := by
  unfold Unit.from_base qdiv; simp [h]

/-- Claim C2: to_base returns ((a*x)+b)/((c*x)+d) when (c*x)+d is nonzero and
fails with DivisionByZero exactly when (c*x)+d is zero; from_base returns
(b-(d*x))/((c*x)-a) when (c*x)-a is nonzero and fails with DivisionByZero
exactly when (c*x)-a is zero. -/
theorem to_base_from_base_division (u : Unit) (x : ℚ) :
    (u.c * x + u.d ≠ 0 → u.to_base x = .ok ((u.a * x + u.b) / (u.c * x + u.d))) ∧
    (u.c * x + u.d = 0 → u.to_base x = .error .divisionByZero) ∧
    (u.c * x - u.a ≠ 0 → u.from_base x = .ok ((u.b - u.d * x) / (u.c * x - u.a))) ∧
    (u.c * x - u.a = 0 → u.from_base x = .error .divisionByZero) :=
  ⟨to_base_ok, to_base_zero, from_base_ok, from_base_zero⟩

/-- A sample unit used to instantiate the theorems on concrete inputs. -/
def sampleUnit : Unit :=
  { name := "double", symbol := "dbl", a := 2, b := 0, c := 0, d := 1,
    displaySymbol := "dbl" }

theorem to_base_from_base_division_witness :
    sampleUnit.to_base 3 = .ok ((sampleUnit.a * 3 + sampleUnit.b) / (sampleUnit.c * 3 + sampleUnit.d)) ∧
    sampleUnit.from_base 6 = .ok ((sampleUnit.b - sampleUnit.d * 6) / (sampleUnit.c * 6 - sampleUnit.a)) :=
  ⟨(to_base_from_base_division sampleUnit 3).1 (by norm_num [sampleUnit]),
   (to_base_from_base_division sampleUnit 6).2.2.1 (by norm_num [sampleUnit])⟩

/-- Claim C3: when a*d - b*c is nonzero and both denominators are nonzero at
x and at y = to_base x, from_base recovers x exactly from to_base x. -/
theorem round_trip (u : Unit) (x : ℚ)
    (_hinv : u.a * u.d - u.b * u.c ≠ 0)
    (hd : u.c * x + u.d ≠ 0)
    (hy : u.c * ((u.a * x + u.b) / (u.c * x + u.d)) - u.a ≠ 0) :
    (u.to_base x).bind u.from_base = .ok x := by
  rw [to_base_ok hd]
  show u.from_base ((u.a * x + u.b) / (u.c * x + u.d)) = .ok x
  rw [from_base_ok hy]
  congr 1
  rw [div_eq_iff hy]
  field_simp
  ring

theorem round_trip_witness :
    (sampleUnit.to_base 3).bind sampleUnit.from_base = .ok 3 :=
  round_trip sampleUnit 3 (by norm_num [sampleUnit]) (by norm_num [sampleUnit])
    (by norm_num [sampleUnit])

/-- Claim C1: convert resolves string arguments through find_unit, fails
with InvalidArgument when either side resolves to nothing, and otherwise is
exactly from_base after to_base, a pure composition with no compatibility
check between the two units. -/
theorem convert_pure_composition (r : Registry) (f t : UnitArg) (v : ℚ) :
    (resolveArg r f = none ∨ resolveArg r t = none →
      convert r f t v = .error .invalidArgument) ∧
    (∀ fu tu : Unit, resolveArg r f = some fu → resolveArg r t = some tu →
      convert r f t v = (fu.to_base v).bind tu.from_base) := by
  unfold convert
  cases hf : resolveArg r f <;> cases ht : resolveArg r t <;> simp_all

theorem convert_pure_composition_witness :
    convert testRegistry (.sym "cm") (.sym "Euc") 100 = .ok 1 := by
  have h := (convert_pure_composition testRegistry (.sym "cm") (.sym "Euc") 100).2
    centimetreUnit eucUnit (by decide) (by decide)
  rw [h, to_base_ok (u := centimetreUnit) (x := 100) (by norm_num [centimetreUnit])]
  show eucUnit.from_base _ = _
  rw [from_base_ok (u := eucUnit) (by norm_num [eucUnit, centimetreUnit])]
  norm_num [eucUnit, centimetreUnit]

/-- Claim C4: find_unit follows the claimed resolution order — sentinel for
absent or blank input, alias substitution of the lower-cased trimmed form
keeping that form for the fallback, first exact case-sensitive match, first
case-insensitive match, otherwise absent — and a blank symbol resolves like
an absent one. -/
theorem find_unit_resolution_order (r : Registry) (s : Option String) :
    find_unit r s = findUnitSpec r s ∧
    (∀ str : String, pytrim str = "" → find_unit r (some str) = find_unit r none) := by
  constructor
  · rfl
  · intro str h
    unfold find_unit
    simp [h]

theorem find_unit_resolution_order_witness :
    find_unit testRegistry (some "CM") = findUnitSpec testRegistry (some "CM") ∧
    find_unit testRegistry (some "  ") = find_unit testRegistry none :=
  ⟨(find_unit_resolution_order testRegistry (some "CM")).1,
   (find_unit_resolution_order testRegistry (some "  ")).2 "  " (by decide)⟩

/-- Claim C9: for the base unit of every non-empty quantity of a registry
whose base units carry the identity transform, to_base and from_base are the
identity on every value. -/
theorem base_unit_identity (r : Registry) (q : Quantity) (bu : Unit) (x : ℚ)
    (hr : BaseUnitsIdentity r) (hq : q ∈ r.quantities)
    (hb : q.base_unit = some bu) :
    bu.to_base x = .ok x ∧ bu.from_base x = .ok x := by
  obtain ⟨ha, hb0, hc, hd⟩ := hr q hq bu (by simp [hb, Option.mem_def])
  constructor
  · rw [to_base_ok (by rw [hc, hd]; norm_num)]
    rw [ha, hb0, hc, hd]
    norm_num
  · rw [from_base_ok (by rw [hc, ha]; norm_num)]
    rw [ha, hb0, hc, hd]
    norm_num

theorem base_unit_identity_witness :
    metreUnit.to_base 5 = .ok 5 ∧ metreUnit.from_base 5 = .ok 5 :=
  base_unit_identity testRegistry lengthQuantity metreUnit 5
    (by
      intro q hq bu hbu
      simp only [testRegistry, List.mem_cons, List.mem_singleton,
        List.not_mem_nil, or_false] at hq
      rcases hq with hq | hq <;> subst hq <;>
        simp only [Quantity.base_unit, lengthQuantity, dimensionlessQuantity,
          List.head?, Option.mem_def, Option.some.injEq] at hbu <;>
        subst hbu <;>
        exact ⟨rfl, rfl, rfl, rfl⟩)
    (by simp [testRegistry])
    rfl

/-- Claim C5 counterexample: convert_by_symbol raises InvalidArgument on an
absent symbol argument instead of returning the value unchanged. -/
theorem convert_by_symbol_raises_on_absent :
    convert_by_symbol testRegistry none (some "m") 5 = .error .invalidArgument ∧
    convert_by_symbol testRegistry none (some "m") 5 ≠ .ok 5 := by
  refine ⟨rfl, ?_⟩
  intro hcontra
  rw [show convert_by_symbol testRegistry none (some "m") 5 =
    Except.error Err.invalidArgument from rfl] at hcontra
  exact Except.noConfusion hcontra

theorem can_convert_by_symbol_some (r : Registry) (s1 s2 : String) :
    can_convert_by_symbol r (some s1) (some s2) =
      match find_unit r (some s1), find_unit r (some s2) with
      | some u1, some u2 => canConvertOf r u1 u2
      | _, _ => .ok false := rfl

theorem convert_by_symbol_some (r : Registry) (s1 s2 : String) (v : ℚ) :
    convert_by_symbol r (some s1) (some s2) v =
      match find_unit r (some s1), find_unit r (some s2) with
      | some u1, some u2 => convert r (.unit u1) (.unit u2) v
      | _, _ => .ok v := rfl

/-- Claim C5 amended: the find and can wrappers degrade to an empty list or
false when either symbol is absent or does not resolve; convert_by_symbol
passes the value through when both symbols are present but either does not
resolve, and raises InvalidArgument when either symbol argument is absent. -/
theorem symbol_wrappers_degrade (r : Registry) (s1 s2 : Option String) (v : ℚ)
    (h : find_unit r s1 = none) :
    find_convertible_units_by_symbol r s1 = [] ∧
    find_quantities_by_symbol r s1 = .ok [] ∧
    can_convert_by_symbol r s1 s2 = .ok false ∧
    can_convert_by_symbol r s2 s1 = .ok false ∧
    (∀ a b : String, s1 = some a → s2 = some b →
      convert_by_symbol r s1 s2 v = .ok v ∧
      convert_by_symbol r s2 s1 v = .ok v) ∧
    convert_by_symbol r none s2 v = .error .invalidArgument ∧
    convert_by_symbol r s1 none v = .error .invalidArgument := by
  refine ⟨?_, ?_, ?_, ?_, ?_, ?_, ?_⟩
  · unfold find_convertible_units_by_symbol
    rw [h]
  · unfold find_quantities_by_symbol
    rw [h]
  · cases s1 with
    | none => cases s2 <;> rfl
    | some a =>
      cases s2 with
      | none => rfl
      | some b =>
        rw [can_convert_by_symbol_some, h]
  · cases s1 with
    | none => cases s2 <;> rfl
    | some a =>
      cases s2 with
      | none => rfl
      | some b =>
        rw [can_convert_by_symbol_some, h]
        cases find_unit r (some b) <;> rfl
  · intro a b ha hb
    subst ha
    subst hb
    constructor
    · rw [convert_by_symbol_some, h]
    · rw [convert_by_symbol_some, h]
      cases find_unit r (some b) <;> rfl
  · cases s2 <;> rfl
  · cases s1 <;> rfl

theorem symbol_wrappers_degrade_witness :
    find_convertible_units_by_symbol testRegistry (some "nosuch") = [] ∧
    convert_by_symbol testRegistry (some "nosuch") (some "m") 5 = .ok 5 := by
  have h := symbol_wrappers_degrade testRegistry (some "nosuch") (some "m") 5
    (by decide)
  exact ⟨h.1, (h.2.2.2.2.1 "nosuch" "m" rfl rfl).1⟩

/-- Claim C10 counterexample: add_unit_alias lower-cases but does not trim
the stored alias key. -/
theorem add_unit_alias_untrimmed_key :
    add_unit_alias emptyRegistry (some " M ") (some "m") =
      .ok { quantities := [], unitAliases := [(" m ", "m")] } ∧
    pytrim " m " ≠ " m " := by
  exact ⟨rfl, by decide⟩

theorem lookup_eq_none_of_no_key (t : List (String × String)) (k : String)
    (h : ∀ kv ∈ t, kv.1 ≠ k) : t.lookup k = none := by
  induction t with
  | nil => rfl
  | cons kv rest ih =>
    obtain ⟨k1, v1⟩ := kv
    have hk : (k == k1) = false := by
      rw [beq_eq_false_iff_ne]
      exact fun he => h (k1, v1) (List.mem_cons_self (k1, v1) rest) he.symm
    simp only [List.lookup, hk]
    exact ih fun kv2 hm => h kv2 (List.mem_cons_of_mem (k1, v1) hm)

/-- Claim C10 amended: add_unit_alias fails with InvalidArgument when either
argument is absent, and otherwise stores the alias key lower-cased but not
trimmed; when every existing key is a lower-casing of some string, so is
every key after the call, and lookup of an absent key yields none rather
than an error. -/
theorem add_unit_alias_lowercased (r : Registry) (al sym : String)
    (hkeys : ∀ kv ∈ r.unitAliases, ∃ s0 : String, kv.1 = pylower s0) :
    add_unit_alias r none (some sym) = .error .invalidArgument ∧
    add_unit_alias r (some al) none = .error .invalidArgument ∧
    add_unit_alias r (some al) (some sym) =
      .ok { r with unitAliases := insertAlias r.unitAliases (pylower al) sym } ∧
    (∀ kv ∈ insertAlias r.unitAliases (pylower al) sym,
      ∃ s0 : String, kv.1 = pylower s0) ∧
    (∀ k : String,
      (∀ kv ∈ insertAlias r.unitAliases (pylower al) sym, kv.1 ≠ k) →
      (insertAlias r.unitAliases (pylower al) sym).lookup k = none) := by
  refine ⟨rfl, rfl, rfl, ?_, ?_⟩
  · intro kv hm
    simp only [insertAlias] at hm
    by_cases hc : r.unitAliases.any (fun kv => kv.1 == pylower al) = true
    · rw [if_pos hc] at hm
      obtain ⟨kv0, hkv0, hmap⟩ := List.mem_map.mp hm
      have := hkeys kv0 hkv0
      by_cases he : (kv0.1 == pylower al) = true
      · rw [if_pos he] at hmap
        rw [← hmap]
        exact this
      · rw [if_neg (by simp_all)] at hmap
        rw [← hmap]
        exact this
    · rw [if_neg hc] at hm
      rcases List.mem_append.mp hm with hm | hm
      · exact hkeys kv hm
      · rw [List.mem_singleton.mp hm]
        exact ⟨al, rfl⟩
  · intro k hk
    exact lookup_eq_none_of_no_key _ k hk

theorem add_unit_alias_lowercased_witness :
    add_unit_alias emptyRegistry (some "KM") (some "km") =
      .ok { quantities := [], unitAliases := [("km", "km")] } := by
  have h := (add_unit_alias_lowercased emptyRegistry "KM" "km"
    (by simp [emptyRegistry])).2.2.1
  rw [h]
  rfl

theorem any_mem_comm (l1 l2 : List (Option Quantity)) :
    (l1.any (fun q => decide (q ∈ l2))) = (l2.any (fun q => decide (q ∈ l1))) := by
  rw [Bool.eq_iff_iff]
  simp only [List.any_eq_true, decide_eq_true_eq]
  exact ⟨fun ⟨q, hq1, hq2⟩ => ⟨q, hq2, hq1⟩, fun ⟨q, hq1, hq2⟩ => ⟨q, hq2, hq1⟩⟩

/-- Claim C6: for present units, can_convert is true exactly when the two
quantity lists share a member, hence symmetric, and it fails with
InvalidArgument when either unit is absent. -/
theorem can_convert_intersection (r : Registry) (u1 u2 : Unit)
    (l1 l2 : List (Option Quantity))
    (h1 : quantitiesByUnitOf r u1 = .ok l1)
    (h2 : quantitiesByUnitOf r u2 = .ok l2) :
    (can_convert r (some u1) (some u2) = .ok true ↔ ∃ q, q ∈ l1 ∧ q ∈ l2) ∧
    can_convert r (some u1) (some u2) = can_convert r (some u2) (some u1) ∧
    (∀ ou : Option Unit, can_convert r none ou = .error .invalidArgument ∧
      can_convert r ou none = .error .invalidArgument) := by
  have hcc : can_convert r (some u1) (some u2) =
      .ok (l1.any (fun q => decide (q ∈ l2))) := by
    show canConvertOf r u1 u2 = _
    unfold canConvertOf
    rw [h1, h2]
  have hcc2 : can_convert r (some u2) (some u1) =
      .ok (l2.any (fun q => decide (q ∈ l1))) := by
    show canConvertOf r u2 u1 = _
    unfold canConvertOf
    rw [h2, h1]
  refine ⟨?_, ?_, ?_⟩
  · rw [hcc]
    simp only [Except.ok.injEq, List.any_eq_true, decide_eq_true_eq]
  · rw [hcc, hcc2]
    exact congrArg Except.ok (any_mem_comm l1 l2)
  · intro ou
    exact ⟨by cases ou <;> rfl, by cases ou <;> rfl⟩

theorem can_convert_intersection_witness :
    can_convert testRegistry (some metreUnit) (some centimetreUnit) = .ok true := by
  have h := can_convert_intersection testRegistry metreUnit centimetreUnit
    [some lengthQuantity] [some lengthQuantity] (by decide) (by decide)
  exact h.1.mpr ⟨some lengthQuantity, by simp, by simp⟩

theorem eucScan_some (e : Unit) (l : List Quantity) :
    eucScan (some e) l = .ok (l.any (fun q => umem e q.units)) := by
  induction l with
  | nil => rfl
  | cons q rest ih =>
    by_cases h : umem e q.units = true
    · simp [eucScan, h]
    · rw [Bool.not_eq_true] at h
      simp [eucScan, h, ih]

/-- Claim C7: on a present unit, find_quantities_by_unit collects every
quantity whose member list contains the unit, then appends the result of
looking up the dimensionless quantity exactly once when any collected
quantity contains the unit resolved from the Euc symbol; an absent unit
fails with InvalidArgument. -/
theorem find_quantities_by_unit_euc (r : Registry) (u e : Unit)
    (he : find_unit r (some "Euc") = some e) :
    quantitiesByUnitOf r u = .ok ((quantitiesContaining r u).map some ++
      (if (quantitiesContaining r u).any (fun q => umem e q.units)
        then [find_quantity r "dimensionless"] else [])) ∧
    find_quantities_by_unit r (some u) = quantitiesByUnitOf r u ∧
    find_quantities_by_unit r none = .error .invalidArgument := by
  refine ⟨?_, rfl, rfl⟩
  unfold quantitiesByUnitOf
  rw [he, eucScan_some]

theorem find_quantities_by_unit_euc_witness :
    quantitiesByUnitOf testRegistry eucUnit =
      .ok [some dimensionlessQuantity, some dimensionlessQuantity] := by
  have h := (find_quantities_by_unit_euc testRegistry eucUnit eucUnit
    (by decide)).1
  rw [h]
  decide

theorem any_ueq_comm (us : List Unit) (w : Unit) :
    us.any (fun e => ueq e w) = umem w us := by
  unfold umem
  induction us with
  | nil => rfl
  | cons x xs ih => rw [List.any_cons, List.any_cons, ih, ueq_symm]

theorem insertUnit_mem (acc : List Unit) (u w : Unit) :
    (insertUnit acc u).any (fun e => ueq e w) =
      (acc.any (fun e => ueq e w) || ueq u w) := by
  unfold insertUnit
  by_cases h : acc.any (fun e => ueq u e) = true
  · rw [if_pos h]
    cases hw : ueq u w
    · rw [Bool.or_false]
    · obtain ⟨e, he, hue⟩ := List.any_eq_true.mp h
      have hew : ueq e w = true :=
        ueq_trans (by rw [ueq_symm]; exact hue) hw
      have hacc : acc.any (fun e => ueq e w) = true :=
        List.any_eq_true.mpr ⟨e, he, hew⟩
      rw [hacc, Bool.true_or]
  · rw [if_neg h, List.any_append, List.any_cons, List.any_nil, Bool.or_false]

theorem unionUnits_mem (us : List Unit) (acc : List Unit) (w : Unit) :
    (unionUnits acc us).any (fun e => ueq e w) =
      (acc.any (fun e => ueq e w) || us.any (fun e => ueq e w)) := by
  induction us generalizing acc with
  | nil => rw [List.any_nil, Bool.or_false]; rfl
  | cons x xs ih =>
    show (unionUnits (insertUnit acc x) xs).any _ = _
    rw [ih, insertUnit_mem, List.any_cons, Bool.or_assoc]

theorem convFold_mem (u w : Unit) (qs : List Quantity) (acc : List Unit) :
    ((qs.foldl
        (fun acc q => if umem u q.units then unionUnits acc q.units else acc)
        acc).any (fun e => ueq e w)) =
      (acc.any (fun e => ueq e w) ||
        qs.any (fun q => umem u q.units && umem w q.units)) := by
  induction qs generalizing acc with
  | nil => rw [List.any_nil, Bool.or_false]; rfl
  | cons q qs ih =>
    rw [List.foldl_cons, ih, List.any_cons]
    by_cases h : umem u q.units = true
    · rw [if_pos h, h, Bool.true_and, unionUnits_mem, Bool.or_assoc]
      simp only [any_ueq_comm]
    · rw [Bool.not_eq_true] at h
      rw [if_neg (by rw [h]; exact Bool.false_ne_true), h, Bool.false_and,
        Bool.false_or]

theorem insertUnit_pairwise (acc : List Unit) (u : Unit)
    (h : acc.Pairwise (fun e f => ueq e f = false)) :
    (insertUnit acc u).Pairwise (fun e f => ueq e f = false) := by
  unfold insertUnit
  by_cases hm : acc.any (fun e => ueq u e) = true
  · rw [if_pos hm]; exact h
  · rw [if_neg hm, List.pairwise_append]
    refine ⟨h, List.pairwise_singleton _ _, ?_⟩
    intro e he f hf
    rw [List.mem_singleton.mp hf]
    cases hcase : ueq e u
    · rfl
    · exact absurd (List.any_eq_true.mpr ⟨e, he, by rw [ueq_symm]; exact hcase⟩) hm

theorem unionUnits_pairwise (us acc : List Unit)
    (h : acc.Pairwise (fun e f => ueq e f = false)) :
    (unionUnits acc us).Pairwise (fun e f => ueq e f = false) := by
  induction us generalizing acc with
  | nil => exact h
  | cons x xs ih => exact ih (insertUnit acc x) (insertUnit_pairwise acc x h)

theorem convFold_pairwise (u : Unit) (qs : List Quantity) (acc : List Unit)
    (h : acc.Pairwise (fun e f => ueq e f = false)) :
    (qs.foldl
        (fun acc q => if umem u q.units then unionUnits acc q.units else acc)
        acc).Pairwise (fun e f => ueq e f = false) := by
  induction qs generalizing acc with
  | nil => exact h
  | cons q qs ih =>
    rw [List.foldl_cons]
    by_cases hm : umem u q.units = true
    · rw [if_pos hm]
      exact ih _ (unionUnits_pairwise q.units acc h)
    · rw [Bool.not_eq_true] at hm
      rw [if_neg (by rw [hm]; exact Bool.false_ne_true)]
      exact ih _ h

/-- Claim C8: on a present unit, find_convertible_units returns the
de-duplicated union of the member lists of every quantity containing the
unit with the unit itself removed, fails with InvalidArgument on an absent
unit, and the unit equality used compares name, symbol and the four
coefficients, the display symbol excluded. -/
theorem find_convertible_units_characterization (r : Registry) (u : Unit) :
    (∀ w : Unit, (convertibleUnitsOf r u).any (fun e => ueq e w) =
      (!(ueq u w) &&
        r.quantities.any (fun q => umem u q.units && umem w q.units))) ∧
    (convertibleUnitsOf r u).Pairwise (fun e f => ueq e f = false) ∧
    find_convertible_units r none = .error .invalidArgument ∧
    find_convertible_units r (some u) = .ok (convertibleUnitsOf r u) ∧
    (∀ v w : Unit, ueq v w = true ↔ (v.name = w.name ∧ v.symbol = w.symbol ∧
      v.a = w.a ∧ v.b = w.b ∧ v.c = w.c ∧ v.d = w.d)) := by
  refine ⟨?_, ?_, rfl, rfl, ueq_iff⟩
  · intro w
    unfold convertibleUnitsOf
    rw [List.any_filter]
    cases hw : ueq u w
    · have hpt : (fun e => (!(ueq e u)) && ueq e w) = fun e => ueq e w := by
        funext e
        cases hew : ueq e w
        · rw [Bool.and_false]
        · have heu : ueq e u = false := by
            cases hcase : ueq e u
            · rfl
            · have : ueq u w = true :=
                ueq_trans (by rw [ueq_symm]; exact hcase) hew
              rw [hw] at this
              exact absurd this Bool.false_ne_true
          rw [heu, Bool.not_false, Bool.true_and]
      rw [hpt, convFold_mem, List.any_nil, Bool.false_or, Bool.not_false,
        Bool.true_and]
    · rw [Bool.not_true, Bool.false_and]
      apply List.any_eq_false.mpr
      intro e he hcontra
      rw [Bool.and_eq_true] at hcontra
      obtain ⟨hne, hew⟩ := hcontra
      have : ueq e u = true := ueq_trans hew (by rw [ueq_symm]; exact hw)
      rw [this] at hne
      exact absurd hne (by decide)
  · exact List.Pairwise.filter _ (convFold_pairwise u r.quantities [] List.Pairwise.nil)

theorem find_convertible_units_characterization_witness :
    (convertibleUnitsOf testRegistry metreUnit).any
      (fun e => ueq e centimetreUnit) = true := by
  have h := (find_convertible_units_characterization testRegistry metreUnit).1
    centimetreUnit
  rw [h]
  decide

end Poum
